import Mathlib

/-!
Verification of the DigitNetJS MNIST data loader (`src/js/data.js`).

The development shallowly embeds the data loader: JavaScript typed arrays
become Lean lists (`Float32Array` contents as `ℚ`, `Uint8Array` contents as
`Nat`), the mutable `MnistData` object becomes a record threaded through the
operations, fallible code returns an explicit error component, and the two
asynchronous network payloads (the decoded sprite and the label bytes) are
inputs to `MnistData.load`.  `tf.util.createShuffledIndices` is an external
library call; its two results are passed to `load` as inputs, and theorems
that need them to be permutations of `[0, P)` hypothesise that.
-/

/-- `IMAGE_SIZE` constant of data.js (28 × 28 pixels per digit). -/
def IMAGE_SIZE : Nat := 784

/-- `NUM_CLASSES` constant of data.js. -/
def NUM_CLASSES : Nat := 10

/-- `NUM_DATASET_ELEMENTS` constant of data.js. -/
def NUM_DATASET_ELEMENTS : Nat := 65000

/-- `NUM_TRAIN_ELEMENTS = Math.floor(TRAIN_TEST_RATIO * NUM_DATASET_ELEMENTS)`
with a train/test ratio of 5/6.  The JavaScript float computation
`Math.floor((5 / 6) * 65000)` yields 54166, the same value as the exact
natural-number division `5 * 65000 / 6` used here. -/
def NUM_TRAIN_ELEMENTS : Nat := 5 * NUM_DATASET_ELEMENTS / 6

/-- `NUM_TEST_ELEMENTS` constant of data.js. -/
def NUM_TEST_ELEMENTS : Nat := NUM_DATASET_ELEMENTS - NUM_TRAIN_ELEMENTS

/-- `MAX_RETRIES` constant of data.js. -/
def MAX_RETRIES : Nat := 3

/-- `RETRY_DELAY` constant of data.js (milliseconds). -/
def RETRY_DELAY : Nat := 1000

/-- JavaScript `TypedArray.prototype.slice(begin, end)` for non-negative
arguments: the elements from `a` (inclusive) to `b` (exclusive), clamped to
the array bounds. -/
def jsSlice (l : List α) (a b : Nat) : List α := (l.drop a).take (b - a)

/-- JavaScript `TypedArray.prototype.set(src, offset)`: overwrite the
destination starting at `offset` with the source elements.  All uses in the
repository are within bounds, which is the case this model is faithful for
(JavaScript throws a RangeError on an out-of-range `set`). -/
def tsSet (dst src : List α) (offset : Nat) : List α :=
  dst.take offset ++ src ++ dst.drop (offset + src.length)

/-- The fields of the `MnistData` class of data.js.  Fields assigned `null`
by the constructor are `Option`s. -/
structure MnistData where
  shuffledTrainIndex : Nat
  shuffledTestIndex : Nat
  datasetImages : Option (List ℚ)
  datasetLabels : Option (List Nat)
  trainIndices : Option (List Nat)
  testIndices : Option (List Nat)
  trainImages : Option (List ℚ)
  testImages : Option (List ℚ)
  trainLabels : Option (List Nat)
  testLabels : Option (List Nat)

/-- The `MnistData` constructor: both cursors start at 0, every data field
is `null`. -/
def MnistData.new : MnistData where
  shuffledTrainIndex := 0
  shuffledTestIndex := 0
  datasetImages := none
  datasetLabels := none
  trainIndices := none
  testIndices := none
  trainImages := none
  testImages := none
  trainLabels := none
  testLabels := none

/-- `MnistData.validateData`: `some msg` is the thrown error, `none` means
validation passed. -/
def MnistData.validateData (d : MnistData) : Option String :=
  match d.datasetImages with
  | none => some "Dataset images are empty or invalid"
  | some imgs =>
    if imgs.length = 0 then some "Dataset images are empty or invalid"
    else
      match d.datasetLabels with
      | none => some "Dataset labels are empty or invalid"
      | some lbls =>
        if lbls.length = 0 then some "Dataset labels are empty or invalid"
        else if imgs.length ≠ NUM_DATASET_ELEMENTS * IMAGE_SIZE then
          some "Invalid image data size"
        else if lbls.length ≠ NUM_DATASET_ELEMENTS * NUM_CLASSES then
          some "Invalid label data size"
        else none

/-- `MnistData.load`, with the two fetched payloads (the decoded sprite and
the label bytes) and the two `tf.util.createShuffledIndices` results passed
as inputs.  Returns the updated object together with `some errorMessage`
when the load failed; on a validation failure the corpus fields have already
been assigned (as in the JavaScript) but the partition and permutation
fields are untouched. -/
def MnistData.load (d : MnistData) (imageData : List ℚ) (labelData : List Nat)
    (trainIdx testIdx : List Nat) : MnistData × Option String :=
  let d1 : MnistData :=
    { d with datasetImages := some imageData, datasetLabels := some labelData }
  match d1.validateData with
  | some e => (d1, some ("Failed to load MNIST dataset: " ++ e))
  | none =>
    ({ d1 with
        trainIndices := some trainIdx
        testIndices := some testIdx
        trainImages := some (imageData.take (IMAGE_SIZE * NUM_TRAIN_ELEMENTS))
        testImages := some (imageData.drop (IMAGE_SIZE * NUM_TRAIN_ELEMENTS))
        trainLabels := some (labelData.take (NUM_CLASSES * NUM_TRAIN_ELEMENTS))
        testLabels := some (labelData.drop (NUM_CLASSES * NUM_TRAIN_ELEMENTS)) },
      none)

/-- The index closure passed by `nextTrainBatch` to `nextBatch`: advance the
train cursor by one modulo the permutation length, then read the permutation
at the new cursor. -/
def trainIndexFn (d : MnistData) : MnistData × Nat :=
  let ti := d.trainIndices.getD []
  let c := (d.shuffledTrainIndex + 1) % ti.length
  ({ d with shuffledTrainIndex := c }, ti.getD c 0)

/-- The index closure passed by `nextTestBatch` to `nextBatch`. -/
def testIndexFn (d : MnistData) : MnistData × Nat :=
  let tei := d.testIndices.getD []
  let c := (d.shuffledTestIndex + 1) % tei.length
  ({ d with shuffledTestIndex := c }, tei.getD c 0)

/-- The loop body of `MnistData.nextBatch`: `n` iterations remain, `i` is
the current output position, `s` is the state captured by the index closure,
and the two accumulators are the pre-allocated output arrays. -/
def nextBatchAux (images : List ℚ) (labels : List Nat) (index : σ → σ × Nat) :
    Nat → Nat → σ → List ℚ → List Nat → σ × List ℚ × List Nat
  | 0, _, s, imgAcc, lblAcc => (s, imgAcc, lblAcc)
  | n + 1, i, s, imgAcc, lblAcc =>
    let p := index s
    let image := jsSlice images (p.2 * IMAGE_SIZE) (p.2 * IMAGE_SIZE + IMAGE_SIZE)
    let label := jsSlice labels (p.2 * NUM_CLASSES) (p.2 * NUM_CLASSES + NUM_CLASSES)
    nextBatchAux images labels index n (i + 1) p.1
      (tsSet imgAcc image (i * IMAGE_SIZE)) (tsSet lblAcc label (i * NUM_CLASSES))

/-- `MnistData.nextBatch(batchSize, data, index)`: allocate the two zeroed
output arrays, then run the copy loop.  The final `tf.tensor2d` calls only
package the flat arrays with shapes `[batchSize, IMAGE_SIZE]` and
`[batchSize, NUM_CLASSES]`, so the model returns the flat arrays. -/
def nextBatch (batchSize : Nat) (images : List ℚ) (labels : List Nat)
    (index : σ → σ × Nat) (s : σ) : σ × List ℚ × List Nat :=
  nextBatchAux images labels index batchSize 0 s
    (List.replicate (batchSize * IMAGE_SIZE) 0)
    (List.replicate (batchSize * NUM_CLASSES) 0)

/-- `MnistData.nextTrainBatch(batchSize)`. -/
def MnistData.nextTrainBatch (d : MnistData) (batchSize : Nat) :
    MnistData × List ℚ × List Nat :=
  nextBatch batchSize (d.trainImages.getD []) (d.trainLabels.getD []) trainIndexFn d

/-- `MnistData.nextTestBatch(batchSize)`. -/
def MnistData.nextTestBatch (d : MnistData) (batchSize : Nat) :
    MnistData × List ℚ × List Nat :=
  nextBatch batchSize (d.testImages.getD []) (d.testLabels.getD []) testIndexFn d

/-- The sequence of indices produced by `n` successive invocations of the
train index closure, starting from state `d` (exactly the indices the next
`n` drawn batch elements use). -/
def trainDraws : MnistData → Nat → List Nat
  | _, 0 => []
  | d, n + 1 => (trainIndexFn d).2 :: trainDraws (trainIndexFn d).1 n

/-- Closed form of the draw sequence: starting from cursor `c`, draw `k`
reads the permutation at position `(c + k + 1) % ti.length`. -/
def drawSeq (ti : List Nat) (c : Nat) (n : Nat) : List Nat :=
  (List.range n).map (fun k => ti.getD ((c + k + 1) % ti.length) 0)

/-- Run a sequence of batch calls against a dataset: `(true, n)` is
`nextTrainBatch(n)`, `(false, n)` is `nextTestBatch(n)`; outputs are
discarded, only the state evolves. -/
def runCalls (d : MnistData) : List (Bool × Nat) → MnistData
  | [] => d
  | c :: rest =>
    runCalls (if c.1 then (d.nextTrainBatch c.2).1 else (d.nextTestBatch c.2).1) rest

/-- The retry loop shared by `loadImagesWithRetry` and `loadLabelsWithRetry`.
`op attempt` is the wrapped operation's outcome on a given attempt number.
The fuel argument equals `retries + 1 - attempt`, so the loop runs for
`attempt = 1 .. retries` exactly as the JavaScript `for` loop does; a fall
through (possible only when `retries = 0`) yields `none`, the JavaScript
`undefined`.  Besides the result, the model records the list of backoff
delays awaited and the list of attempt numbers tried. -/
def retryAux (op : Nat → Except String α) (retries : Nat) :
    Nat → Nat → List Nat → List Nat → Option (Except String α) × List Nat × List Nat
  | 0, _, delays, attempts => (none, delays, attempts)
  | fuel + 1, attempt, delays, attempts =>
    match op attempt with
    | Except.ok a => (some (Except.ok a), delays, attempts ++ [attempt])
    | Except.error e =>
      if attempt = retries then (some (Except.error e), delays, attempts ++ [attempt])
      else
        retryAux op retries fuel (attempt + 1)
          (delays ++ [RETRY_DELAY * attempt]) (attempts ++ [attempt])

/-- `MnistData.loadImagesWithRetry(retries)`, with the underlying
`loadImages` call abstracted as `op`. -/
def loadImagesWithRetry (op : Nat → Except String α) (retries : Nat) :
    Option (Except String α) × List Nat × List Nat :=
  retryAux op retries retries 1 [] []

/-- `MnistData.loadLabelsWithRetry(retries)`, with the underlying
`loadLabels` call abstracted as `op`.  Identical in structure to
`loadImagesWithRetry`. -/
def loadLabelsWithRetry (op : Nat → Except String α) (retries : Nat) :
    Option (Except String α) × List Nat × List Nat :=
  retryAux op retries retries 1 [] []

/-- The number of iterations of the chunk loop
`for (let i = 0; i < n / chunkSize; i++)` of `loadImages`, whose bound is
the JavaScript floating-point quotient: `⌈n / chunkSize⌉` iterations. -/
def numChunks (n chunkSize : Nat) : Nat := (n + chunkSize - 1) / chunkSize

/-- The pixel values `ctx.getImageData` exposes for chunk `i` of the sprite
(one value per pixel, the red channel — the sprite is grayscale), already
divided by 255 as in the inner loop of `loadImages`.  `w` is the sprite
width, `red` gives the red channel of a sprite pixel by global row-major
index. -/
def chunkData (chunkSize w : Nat) (red : Nat → Nat) (i : Nat) : List ℚ :=
  (List.range (w * chunkSize)).map (fun j => (red (i * chunkSize * w + j) : ℚ) / 255)

/-- The chunk loop of `MnistData.loadImages`, generic in the total example
count `n` (the code instantiates it with `NUM_DATASET_ELEMENTS`).  Each
iteration first constructs the `Float32Array` view of the chunk — which
throws a RangeError when the view does not fit in the
`n * IMAGE_SIZE`-element buffer — then overwrites the view with that
chunk's normalized pixels (a JavaScript typed-array store past the view's
end is silently dropped, hence the `take`). -/
def decodeChunksAux (chunkSize w n : Nat) (red : Nat → Nat) :
    Nat → Nat → List ℚ → Except String (List ℚ)
  | 0, _, buf => Except.ok buf
  | fuel + 1, i, buf =>
    if (i + 1) * (IMAGE_SIZE * chunkSize) ≤ n * IMAGE_SIZE then
      decodeChunksAux chunkSize w n red fuel (i + 1)
        (tsSet buf ((chunkData chunkSize w red i).take (IMAGE_SIZE * chunkSize))
          (i * (IMAGE_SIZE * chunkSize)))
    else Except.error "RangeError: invalid typed array length"

/-- The sprite decoding of `MnistData.loadImages`: a zeroed buffer of
`n * IMAGE_SIZE` floats, filled by the chunk loop. -/
def loadImagesDecode (n chunkSize w : Nat) (red : Nat → Nat) :
    Except String (List ℚ) :=
  decodeChunksAux chunkSize w n red (numChunks n chunkSize) 0
    (List.replicate (n * IMAGE_SIZE) 0)

theorem jsSlice_length_le (l : List α) (a b : Nat) :
    (jsSlice l a b).length ≤ b - a := by
  simp only [jsSlice, List.length_take, List.length_drop]
  omega

theorem jsSlice_length_eq (l : List α) (a b : Nat) (hab : a ≤ b)
    (hb : b ≤ l.length) : (jsSlice l a b).length = b - a := by
  simp only [jsSlice, List.length_take, List.length_drop]
  omega

theorem jsSlice_getD (l : List α) (a b t : Nat) (d : α) (h1 : t < b - a) :
    (jsSlice l a b).getD t d = l.getD (a + t) d := by
  simp only [jsSlice, List.getD_eq_getElem?_getD, List.getElem?_take, if_pos h1,
    List.getElem?_drop]

theorem getD_replicate (n k : Nat) (a : α) : (List.replicate n a).getD k a = a := by
  rw [List.getD_eq_getElem?_getD, List.getElem?_replicate]
  by_cases h : k < n <;> simp [h]

theorem tsSet_length (dst src : List α) (off : Nat)
    (h : off + src.length ≤ dst.length) :
    (tsSet dst src off).length = dst.length := by
  simp only [tsSet, List.length_append, List.length_take, List.length_drop]
  omega

theorem tsSet_getD (dst src : List α) (off k : Nat) (d : α)
    (h : off + src.length ≤ dst.length) :
    (tsSet dst src off).getD k d =
      if off ≤ k ∧ k < off + src.length then src.getD (k - off) d
      else dst.getD k d := by
  have hA : (dst.take off).length = off := by
    rw [List.length_take]; omega
  have hAB : (dst.take off ++ src).length = off + src.length := by
    rw [List.length_append, hA]
  rw [tsSet, List.getD_eq_getElem?_getD]
  rcases Nat.lt_or_ge k off with h1 | h1
  · rw [if_neg (by omega)]
    rw [List.getElem?_append_left (by rw [hAB]; omega),
        List.getElem?_append_left (by rw [hA]; omega),
        List.getElem?_take, if_pos h1, List.getD_eq_getElem?_getD]
  · rcases Nat.lt_or_ge k (off + src.length) with h2 | h2
    · rw [if_pos ⟨h1, h2⟩]
      rw [List.getElem?_append_left (by rw [hAB]; omega),
          List.getElem?_append_right (by rw [hA]; omega), hA,
          List.getD_eq_getElem?_getD]
    · rw [if_neg (by omega)]
      rw [List.getElem?_append_right (by rw [hAB]; omega), hAB,
          List.getElem?_drop, List.getD_eq_getElem?_getD]
      have : off + src.length + (k - (off + src.length)) = k := by omega
      rw [this]

theorem nextBatchAux_fst_invariant {σ β : Type} (images : List ℚ)
    (labels : List Nat) (index : σ → σ × Nat) (f : σ → β)
    (hf : ∀ s, f (index s).1 = f s) :
    ∀ n i s imgAcc lblAcc,
      f (nextBatchAux images labels index n i s imgAcc lblAcc).1 = f s := by
  intro n
  induction n with
  | zero => intro i s a b; rfl
  | succ m ih =>
    intro i s a b
    simp only [nextBatchAux]
    rw [ih]
    exact hf s

/-- Behaviour of an index closure with respect to an invariant `Inv` on the
captured state, a cursor projection `cur` and a permutation array `ti`:
one call advances the cursor by one modulo `ti.length` and returns the
permutation entry at the new cursor. -/
def IndexSpec {σ : Type} (index : σ → σ × Nat) (Inv : σ → Prop)
    (cur : σ → Nat) (ti : List Nat) : Prop :=
  ∀ s, Inv s →
    Inv (index s).1 ∧
    cur (index s).1 = (cur s + 1) % ti.length ∧
    (index s).2 = ti.getD ((cur s + 1) % ti.length) 0

theorem nextBatchAux_cursor {σ : Type} (images : List ℚ) (labels : List Nat)
    (index : σ → σ × Nat) (Inv : σ → Prop) (cur : σ → Nat) (ti : List Nat)
    (hspec : IndexSpec index Inv cur ti) :
    ∀ n i s imgAcc lblAcc, Inv s → 1 ≤ n →
      Inv (nextBatchAux images labels index n i s imgAcc lblAcc).1 ∧
      cur (nextBatchAux images labels index n i s imgAcc lblAcc).1
        = (cur s + n) % ti.length := by
  intro n
  induction n with
  | zero => intro i s a b _ h1; omega
  | succ m ih =>
    intro i s a b hs _
    rcases hspec s hs with ⟨hInv, hcur, _⟩
    rcases Nat.eq_zero_or_pos m with hm | hm
    · subst hm
      simp only [nextBatchAux]
      exact ⟨hInv, hcur⟩
    · simp only [nextBatchAux]
      rcases ih (i + 1) (index s).1 _ _ hInv hm with ⟨h1, h2⟩
      refine ⟨h1, ?_⟩
      rw [h2, hcur, Nat.mod_add_mod]
      congr 1
      omega

theorem nextBatchAux_getD_lt {σ : Type} (images : List ℚ) (labels : List Nat)
    (index : σ → σ × Nat) :
    ∀ n i s imgAcc lblAcc,
      (i + n) * IMAGE_SIZE ≤ imgAcc.length →
      (i + n) * NUM_CLASSES ≤ lblAcc.length →
      ∀ q,
        (q < i * IMAGE_SIZE →
          (nextBatchAux images labels index n i s imgAcc lblAcc).2.1.getD q 0
            = imgAcc.getD q 0) ∧
        (q < i * NUM_CLASSES →
          (nextBatchAux images labels index n i s imgAcc lblAcc).2.2.getD q 0
            = lblAcc.getD q 0) := by
  intro n
  induction n with
  | zero => intro i s a b _ _ q; exact ⟨fun _ => rfl, fun _ => rfl⟩
  | succ m ih =>
    intro i s a b ha hb q
    simp only [nextBatchAux]
    set isl := jsSlice images ((index s).2 * IMAGE_SIZE)
      ((index s).2 * IMAGE_SIZE + IMAGE_SIZE) with hisl
    set lsl := jsSlice labels ((index s).2 * NUM_CLASSES)
      ((index s).2 * NUM_CLASSES + NUM_CLASSES) with hlsl
    have hil : isl.length ≤ IMAGE_SIZE := by
      have := jsSlice_length_le images ((index s).2 * IMAGE_SIZE)
        ((index s).2 * IMAGE_SIZE + IMAGE_SIZE)
      rw [← hisl] at this
      omega
    have hll : lsl.length ≤ NUM_CLASSES := by
      have := jsSlice_length_le labels ((index s).2 * NUM_CLASSES)
        ((index s).2 * NUM_CLASSES + NUM_CLASSES)
      rw [← hlsl] at this
      omega
    have hstep1 : i * IMAGE_SIZE + IMAGE_SIZE ≤ a.length := by
      have h1 : (i + 1) * IMAGE_SIZE ≤ (i + (m + 1)) * IMAGE_SIZE :=
        Nat.mul_le_mul_right _ (by omega)
      rw [add_one_mul] at h1
      exact le_trans h1 ha
    have hstep2 : i * NUM_CLASSES + NUM_CLASSES ≤ b.length := by
      have h1 : (i + 1) * NUM_CLASSES ≤ (i + (m + 1)) * NUM_CLASSES :=
        Nat.mul_le_mul_right _ (by omega)
      rw [add_one_mul] at h1
      exact le_trans h1 hb
    have hfits1 : i * IMAGE_SIZE + isl.length ≤ a.length := by omega
    have hfits2 : i * NUM_CLASSES + lsl.length ≤ b.length := by omega
    have ha' : (i + 1 + m) * IMAGE_SIZE ≤ (tsSet a isl (i * IMAGE_SIZE)).length := by
      rw [tsSet_length _ _ _ hfits1]
      have h2 : i + 1 + m = i + (m + 1) := by omega
      rw [h2]
      exact ha
    have hb' : (i + 1 + m) * NUM_CLASSES ≤ (tsSet b lsl (i * NUM_CLASSES)).length := by
      rw [tsSet_length _ _ _ hfits2]
      have h2 : i + 1 + m = i + (m + 1) := by omega
      rw [h2]
      exact hb
    constructor
    · intro hq
      have hq' : q < (i + 1) * IMAGE_SIZE := by rw [add_one_mul]; omega
      rw [(ih (i + 1) (index s).1 _ _ ha' hb' q).1 hq']
      rw [tsSet_getD _ _ _ _ _ hfits1, if_neg (by omega)]
    · intro hq
      have hq' : q < (i + 1) * NUM_CLASSES := by rw [add_one_mul]; omega
      rw [(ih (i + 1) (index s).1 _ _ ha' hb' q).2 hq']
      rw [tsSet_getD _ _ _ _ _ hfits2, if_neg (by omega)]

theorem nextBatchAux_length {σ : Type} (images : List ℚ) (labels : List Nat)
    (index : σ → σ × Nat) :
    ∀ n i s imgAcc lblAcc,
      (i + n) * IMAGE_SIZE ≤ imgAcc.length →
      (i + n) * NUM_CLASSES ≤ lblAcc.length →
      (nextBatchAux images labels index n i s imgAcc lblAcc).2.1.length
          = imgAcc.length ∧
      (nextBatchAux images labels index n i s imgAcc lblAcc).2.2.length
          = lblAcc.length := by
  intro n
  induction n with
  | zero => intro i s a b _ _; exact ⟨rfl, rfl⟩
  | succ m ih =>
    intro i s a b ha hb
    simp only [nextBatchAux]
    set isl := jsSlice images ((index s).2 * IMAGE_SIZE)
      ((index s).2 * IMAGE_SIZE + IMAGE_SIZE) with hisl
    set lsl := jsSlice labels ((index s).2 * NUM_CLASSES)
      ((index s).2 * NUM_CLASSES + NUM_CLASSES) with hlsl
    have hil : isl.length ≤ IMAGE_SIZE := by
      have := jsSlice_length_le images ((index s).2 * IMAGE_SIZE)
        ((index s).2 * IMAGE_SIZE + IMAGE_SIZE)
      rw [← hisl] at this
      omega
    have hll : lsl.length ≤ NUM_CLASSES := by
      have := jsSlice_length_le labels ((index s).2 * NUM_CLASSES)
        ((index s).2 * NUM_CLASSES + NUM_CLASSES)
      rw [← hlsl] at this
      omega
    have hstep1 : i * IMAGE_SIZE + IMAGE_SIZE ≤ a.length := by
      have h1 : (i + 1) * IMAGE_SIZE ≤ (i + (m + 1)) * IMAGE_SIZE :=
        Nat.mul_le_mul_right _ (by omega)
      rw [add_one_mul] at h1
      exact le_trans h1 ha
    have hstep2 : i * NUM_CLASSES + NUM_CLASSES ≤ b.length := by
      have h1 : (i + 1) * NUM_CLASSES ≤ (i + (m + 1)) * NUM_CLASSES :=
        Nat.mul_le_mul_right _ (by omega)
      rw [add_one_mul] at h1
      exact le_trans h1 hb
    have hfits1 : i * IMAGE_SIZE + isl.length ≤ a.length := by omega
    have hfits2 : i * NUM_CLASSES + lsl.length ≤ b.length := by omega
    have ha' : (i + 1 + m) * IMAGE_SIZE ≤ (tsSet a isl (i * IMAGE_SIZE)).length := by
      rw [tsSet_length _ _ _ hfits1]
      have h2 : i + 1 + m = i + (m + 1) := by omega
      rw [h2]
      exact ha
    have hb' : (i + 1 + m) * NUM_CLASSES ≤ (tsSet b lsl (i * NUM_CLASSES)).length := by
      rw [tsSet_length _ _ _ hfits2]
      have h2 : i + 1 + m = i + (m + 1) := by omega
      rw [h2]
      exact hb
    rcases ih (i + 1) (index s).1 _ _ ha' hb' with ⟨h1, h2⟩
    rw [h1, h2, tsSet_length _ _ _ hfits1, tsSet_length _ _ _ hfits2]
    exact ⟨rfl, rfl⟩

theorem nextBatchAux_getD_elem {σ : Type} (images : List ℚ) (labels : List Nat)
    (index : σ → σ × Nat) (Inv : σ → Prop) (cur : σ → Nat) (ti : List Nat)
    (hspec : IndexSpec index Inv cur ti) (hne : ti ≠ [])
    (himg : ∀ v ∈ ti, (v + 1) * IMAGE_SIZE ≤ images.length)
    (hlbl : ∀ v ∈ ti, (v + 1) * NUM_CLASSES ≤ labels.length) :
    ∀ n i s imgAcc lblAcc, Inv s →
      (i + n) * IMAGE_SIZE ≤ imgAcc.length →
      (i + n) * NUM_CLASSES ≤ lblAcc.length →
      ∀ j, i ≤ j → j < i + n →
        (∀ t, t < IMAGE_SIZE →
          (nextBatchAux images labels index n i s imgAcc lblAcc).2.1.getD
              (j * IMAGE_SIZE + t) 0
            = images.getD
                (ti.getD ((cur s + (j - i) + 1) % ti.length) 0 * IMAGE_SIZE + t) 0) ∧
        (∀ t, t < NUM_CLASSES →
          (nextBatchAux images labels index n i s imgAcc lblAcc).2.2.getD
              (j * NUM_CLASSES + t) 0
            = labels.getD
                (ti.getD ((cur s + (j - i) + 1) % ti.length) 0 * NUM_CLASSES + t) 0) := by
  have hP : 0 < ti.length := List.length_pos.mpr hne
  have hmem : ∀ c : Nat, c < ti.length → ti.getD c 0 ∈ ti := by
    intro c hc
    rw [List.getD_eq_getElem ti 0 hc]
    exact List.getElem_mem hc
  intro n
  induction n with
  | zero => intro i s a b _ _ _ j hij hj; omega
  | succ m ih =>
    intro i s a b hs ha hb j hij hj
    obtain ⟨hInv, hcur, hval⟩ := hspec s hs
    have hidxmem : (index s).2 ∈ ti := by
      rw [hval]
      exact hmem _ (Nat.mod_lt _ hP)
    have himgfit : ((index s).2 + 1) * IMAGE_SIZE ≤ images.length := himg _ hidxmem
    have hlblfit : ((index s).2 + 1) * NUM_CLASSES ≤ labels.length := hlbl _ hidxmem
    rw [add_one_mul] at himgfit hlblfit
    simp only [nextBatchAux]
    set isl := jsSlice images ((index s).2 * IMAGE_SIZE)
      ((index s).2 * IMAGE_SIZE + IMAGE_SIZE) with hisl
    set lsl := jsSlice labels ((index s).2 * NUM_CLASSES)
      ((index s).2 * NUM_CLASSES + NUM_CLASSES) with hlsl
    have hil : isl.length = IMAGE_SIZE := by
      rw [hisl, jsSlice_length_eq images _ _ (by omega) himgfit]
      omega
    have hll : lsl.length = NUM_CLASSES := by
      rw [hlsl, jsSlice_length_eq labels _ _ (by omega) hlblfit]
      omega
    have hstep1 : i * IMAGE_SIZE + IMAGE_SIZE ≤ a.length := by
      have h1 : (i + 1) * IMAGE_SIZE ≤ (i + (m + 1)) * IMAGE_SIZE :=
        Nat.mul_le_mul_right _ (by omega)
      rw [add_one_mul] at h1
      exact le_trans h1 ha
    have hstep2 : i * NUM_CLASSES + NUM_CLASSES ≤ b.length := by
      have h1 : (i + 1) * NUM_CLASSES ≤ (i + (m + 1)) * NUM_CLASSES :=
        Nat.mul_le_mul_right _ (by omega)
      rw [add_one_mul] at h1
      exact le_trans h1 hb
    have hfits1 : i * IMAGE_SIZE + isl.length ≤ a.length := by omega
    have hfits2 : i * NUM_CLASSES + lsl.length ≤ b.length := by omega
    have ha' : (i + 1 + m) * IMAGE_SIZE ≤ (tsSet a isl (i * IMAGE_SIZE)).length := by
      rw [tsSet_length _ _ _ hfits1]
      have h2 : i + 1 + m = i + (m + 1) := by omega
      rw [h2]
      exact ha
    have hb' : (i + 1 + m) * NUM_CLASSES ≤ (tsSet b lsl (i * NUM_CLASSES)).length := by
      rw [tsSet_length _ _ _ hfits2]
      have h2 : i + 1 + m = i + (m + 1) := by omega
      rw [h2]
      exact hb
    rcases Nat.eq_or_lt_of_le hij with hji | hji
    · constructor
      · intro t ht
        have hq' : i * IMAGE_SIZE + t < (i + 1) * IMAGE_SIZE := by
          rw [add_one_mul]; omega
        have hjq : j * IMAGE_SIZE + t = i * IMAGE_SIZE + t := by rw [← hji]
        rw [hjq,
          (nextBatchAux_getD_lt images labels index m (i + 1) (index s).1 _ _
            ha' hb' (i * IMAGE_SIZE + t)).1 hq',
          tsSet_getD _ _ _ _ _ hfits1, if_pos (by omega)]
        have hsub : i * IMAGE_SIZE + t - i * IMAGE_SIZE = t := by omega
        rw [hsub, hisl, jsSlice_getD images _ _ t 0 (by omega)]
        have hji0 : j - i = 0 := by omega
        rw [hji0, Nat.add_zero, hval]
      · intro t ht
        have hq' : i * NUM_CLASSES + t < (i + 1) * NUM_CLASSES := by
          rw [add_one_mul]; omega
        have hjq : j * NUM_CLASSES + t = i * NUM_CLASSES + t := by rw [← hji]
        rw [hjq,
          (nextBatchAux_getD_lt images labels index m (i + 1) (index s).1 _ _
            ha' hb' (i * NUM_CLASSES + t)).2 hq',
          tsSet_getD _ _ _ _ _ hfits2, if_pos (by omega)]
        have hsub : i * NUM_CLASSES + t - i * NUM_CLASSES = t := by omega
        rw [hsub, hlsl, jsSlice_getD labels _ _ t 0 (by omega)]
        have hji0 : j - i = 0 := by omega
        rw [hji0, Nat.add_zero, hval]
    · have hmodeq : (cur (index s).1 + (j - (i + 1)) + 1) % ti.length
          = (cur s + (j - i) + 1) % ti.length := by
        rw [hcur, add_assoc, Nat.mod_add_mod, ← add_assoc]
        have h3 : cur s + 1 + (j - (i + 1)) + 1 = cur s + (j - i) + 1 := by omega
        rw [h3]
      have := ih (i + 1) (index s).1 _ _ hInv ha' hb' j (by omega) (by omega)
      rw [hmodeq] at this
      exact this

theorem trainIndexFn_spec (ti : List Nat) :
    IndexSpec trainIndexFn (fun d => d.trainIndices = some ti)
      (fun d => d.shuffledTrainIndex) ti := by
  intro s hs
  refine ⟨?_, ?_, ?_⟩ <;> simp [trainIndexFn, hs]

theorem testIndexFn_spec (tei : List Nat) :
    IndexSpec testIndexFn (fun d => d.testIndices = some tei)
      (fun d => d.shuffledTestIndex) tei := by
  intro s hs
  refine ⟨?_, ?_, ?_⟩ <;> simp [testIndexFn, hs]

theorem drawSeq_getD (ti : List Nat) (c n k : Nat) (hk : k < n) :
    (drawSeq ti c n).getD k 0 = ti.getD ((c + k + 1) % ti.length) 0 := by
  rw [drawSeq, List.getD_eq_getElem?_getD, List.getElem?_map, List.getElem?_range hk]
  rfl

theorem drawSeq_succ (ti : List Nat) (c n : Nat) :
    drawSeq ti c (n + 1)
      = ti.getD ((c + 1) % ti.length) 0 :: drawSeq ti ((c + 1) % ti.length) n := by
  rw [drawSeq, List.range_succ_eq_map, List.map_cons, List.map_map]
  congr 1
  rw [drawSeq]
  congr 1
  funext k
  simp only [Function.comp_apply]
  have h1 : (c + 1) % ti.length + k + 1 = (c + 1) % ti.length + (k + 1) := by omega
  rw [h1, Nat.mod_add_mod]
  have h2 : c + 1 + (k + 1) = c + Nat.succ k + 1 := by omega
  rw [h2]

theorem drawSeq_mod (ti : List Nat) (c n : Nat) :
    drawSeq ti (c % ti.length) n = drawSeq ti c n := by
  rw [drawSeq, drawSeq]
  congr 1
  funext k
  have h1 : c % ti.length + k + 1 = c % ti.length + (k + 1) := by omega
  rw [h1, Nat.mod_add_mod]
  have h2 : c + (k + 1) = c + k + 1 := by omega
  rw [h2]

theorem drawSeq_append (ti : List Nat) (n : Nat) :
    ∀ m c, drawSeq ti c (m + n)
      = drawSeq ti c m ++ drawSeq ti ((c + m) % ti.length) n := by
  intro m
  induction m with
  | zero =>
    intro c
    rw [Nat.zero_add, Nat.add_zero]
    have h0 : drawSeq ti c 0 = [] := rfl
    rw [h0, List.nil_append, drawSeq_mod]
  | succ m ih =>
    intro c
    have hl : m + 1 + n = (m + n) + 1 := by omega
    rw [hl, drawSeq_succ, ih ((c + 1) % ti.length), drawSeq_succ, List.cons_append]
    congr 3
    rw [Nat.mod_add_mod]
    have h2 : c + 1 + m = c + (m + 1) := by omega
    rw [h2]

theorem drawSeq_epoch_rotate (ti : List Nat) (hne : ti ≠ []) :
    drawSeq ti 0 ti.length = ti.rotate 1 := by
  have hP : 0 < ti.length := List.length_pos.mpr hne
  apply List.ext_getElem
  · rw [drawSeq]
    simp
  · intro k h1 h2
    rw [List.getElem_rotate]
    have hk : k < ti.length := by
      rw [drawSeq] at h1
      simpa using h1
    simp only [drawSeq, List.getElem_map, List.getElem_range, Nat.zero_add]
    rw [List.getD_eq_getElem ti 0 (Nat.mod_lt _ hP)]

theorem trainDraws_eq (ti : List Nat) :
    ∀ n (d : MnistData), d.trainIndices = some ti →
      trainDraws d n = drawSeq ti d.shuffledTrainIndex n := by
  intro n
  induction n with
  | zero => intro d h; rfl
  | succ m ih =>
    intro d h
    rw [trainDraws, drawSeq_succ]
    congr 1
    · simp [trainIndexFn, h]
    · rw [ih (trainIndexFn d).1 (by simp [trainIndexFn, h])]
      simp [trainIndexFn, h]

theorem numChunks_of_dvd (n c : Nat) (hc : 0 < c) (h : c ∣ n) :
    numChunks n c = n / c := by
  obtain ⟨m, rfl⟩ := h
  rw [numChunks]
  have h1 : c * m + c - 1 = c * m + (c - 1) := by omega
  rw [h1, Nat.mul_add_div hc, Nat.div_eq_of_lt (by omega),
    Nat.mul_div_cancel_left _ hc, Nat.add_zero]

theorem chunkData_length (cs : Nat) (red : Nat → Nat) (i : Nat) :
    (chunkData cs 784 red i).length = IMAGE_SIZE * cs := by
  simp [chunkData, IMAGE_SIZE]

theorem chunkData_getD (cs : Nat) (red : Nat → Nat) (i j : Nat)
    (hj : j < IMAGE_SIZE * cs) :
    (chunkData cs 784 red i).getD j 0
      = (red (i * (IMAGE_SIZE * cs) + j) : ℚ) / 255 := by
  have hj' : j < 784 * cs := hj
  rw [chunkData, List.getD_eq_getElem?_getD, List.getElem?_map,
    List.getElem?_range hj']
  have he : i * cs * 784 = i * (IMAGE_SIZE * cs) := by
    show i * cs * 784 = i * (784 * cs)
    ring
  rw [he]
  rfl

theorem decodeChunksAux_spec (cs n : Nat) (red : Nat → Nat) :
    ∀ fuel i buf, buf.length = n * IMAGE_SIZE →
      (i + fuel) * (IMAGE_SIZE * cs) ≤ n * IMAGE_SIZE →
      ∃ out, decodeChunksAux cs 784 n red fuel i buf = Except.ok out ∧
        out.length = n * IMAGE_SIZE ∧
        (∀ k, k < i * (IMAGE_SIZE * cs) → out.getD k 0 = buf.getD k 0) ∧
        (∀ k, i * (IMAGE_SIZE * cs) ≤ k → k < (i + fuel) * (IMAGE_SIZE * cs) →
          out.getD k 0 = (red k : ℚ) / 255) := by
  intro fuel
  induction fuel with
  | zero =>
    intro i buf hlen _
    refine ⟨buf, rfl, hlen, fun k _ => rfl, fun k h1 h2 => ?_⟩
    rw [Nat.add_zero] at h2
    omega
  | succ m ih =>
    intro i buf hlen hbound
    have hmono : (i + 1) * (IMAGE_SIZE * cs) ≤ (i + (m + 1)) * (IMAGE_SIZE * cs) :=
      Nat.mul_le_mul_right _ (by omega)
    have hcond : (i + 1) * (IMAGE_SIZE * cs) ≤ n * IMAGE_SIZE := le_trans hmono hbound
    have hadd : (i + 1) * (IMAGE_SIZE * cs)
        = i * (IMAGE_SIZE * cs) + IMAGE_SIZE * cs := add_one_mul _ _
    have hsrclen : ((chunkData cs 784 red i).take (IMAGE_SIZE * cs)).length
        = IMAGE_SIZE * cs := by
      rw [List.length_take, chunkData_length]
      exact Nat.min_self _
    have hfits : i * (IMAGE_SIZE * cs)
        + ((chunkData cs 784 red i).take (IMAGE_SIZE * cs)).length ≤ buf.length := by
      rw [hsrclen, hlen, ← hadd]
      exact hcond
    have hlen' : (tsSet buf ((chunkData cs 784 red i).take (IMAGE_SIZE * cs))
        (i * (IMAGE_SIZE * cs))).length = n * IMAGE_SIZE := by
      rw [tsSet_length _ _ _ hfits, hlen]
    have hbound' : (i + 1 + m) * (IMAGE_SIZE * cs) ≤ n * IMAGE_SIZE := by
      have e : i + 1 + m = i + (m + 1) := by omega
      rw [e]
      exact hbound
    obtain ⟨out, hout, holen, hofr, hoval⟩ :=
      ih (i + 1) (tsSet buf ((chunkData cs 784 red i).take (IMAGE_SIZE * cs))
        (i * (IMAGE_SIZE * cs))) hlen' hbound'
    simp only [decodeChunksAux]
    rw [if_pos hcond]
    refine ⟨out, hout, holen, ?_, ?_⟩
    · intro k hk
      have hk' : k < (i + 1) * (IMAGE_SIZE * cs) := by omega
      rw [hofr k hk', tsSet_getD _ _ _ _ _ hfits, if_neg (by omega)]
    · intro k hk1 hk2
      rcases Nat.lt_or_ge k ((i + 1) * (IMAGE_SIZE * cs)) with hk3 | hk3
      · rw [hofr k hk3, tsSet_getD _ _ _ _ _ hfits,
          if_pos (by rw [hsrclen]; omega)]
        have hsub : k - i * (IMAGE_SIZE * cs) < IMAGE_SIZE * cs := by omega
        rw [List.getD_eq_getElem?_getD, List.getElem?_take, if_pos hsub,
          ← List.getD_eq_getElem?_getD, chunkData_getD _ _ _ _ hsub]
        have he : i * (IMAGE_SIZE * cs) + (k - i * (IMAGE_SIZE * cs)) = k := by
          omega
        rw [he]
      · have e : i + (m + 1) = i + 1 + m := by omega
        rw [e] at hk2
        exact hoval k hk3 hk2

theorem validateData_none (d : MnistData) (imgs : List ℚ) (lbls : List Nat)
    (h1 : d.datasetImages = some imgs) (h2 : d.datasetLabels = some lbls)
    (hi : imgs.length = NUM_DATASET_ELEMENTS * IMAGE_SIZE)
    (hl : lbls.length = NUM_DATASET_ELEMENTS * NUM_CLASSES) :
    d.validateData = none := by
  simp [MnistData.validateData, h1, h2, hi, hl, NUM_DATASET_ELEMENTS, IMAGE_SIZE,
    NUM_CLASSES]

theorem load_eq_of_valid (d : MnistData) (imgs : List ℚ) (lbls : List Nat)
    (ti tei : List Nat)
    (hi : imgs.length = NUM_DATASET_ELEMENTS * IMAGE_SIZE)
    (hl : lbls.length = NUM_DATASET_ELEMENTS * NUM_CLASSES) :
    d.load imgs lbls ti tei
      = ({ d with
            datasetImages := some imgs
            datasetLabels := some lbls
            trainIndices := some ti
            testIndices := some tei
            trainImages := some (imgs.take (IMAGE_SIZE * NUM_TRAIN_ELEMENTS))
            testImages := some (imgs.drop (IMAGE_SIZE * NUM_TRAIN_ELEMENTS))
            trainLabels := some (lbls.take (NUM_CLASSES * NUM_TRAIN_ELEMENTS))
            testLabels := some (lbls.drop (NUM_CLASSES * NUM_TRAIN_ELEMENTS)) },
        none) := by
  simp only [MnistData.load]
  rw [validateData_none _ imgs lbls (by rfl) (by rfl) hi hl]

/-- C10: after a load, every call to `nextTrainBatch` mutates only the train
cursor `shuffledTrainIndex`, leaving the test cursor, both corpora, all four
partition arrays and both index permutations unchanged; symmetrically,
`nextTestBatch` mutates only the test cursor `shuffledTestIndex`.  (The
statement holds for every state, loaded or not.) -/
theorem nextBatch_frame (d : MnistData) (batchSize : Nat) :
    ((d.nextTrainBatch batchSize).1.shuffledTestIndex = d.shuffledTestIndex ∧
      (d.nextTrainBatch batchSize).1.datasetImages = d.datasetImages ∧
      (d.nextTrainBatch batchSize).1.datasetLabels = d.datasetLabels ∧
      (d.nextTrainBatch batchSize).1.trainIndices = d.trainIndices ∧
      (d.nextTrainBatch batchSize).1.testIndices = d.testIndices ∧
      (d.nextTrainBatch batchSize).1.trainImages = d.trainImages ∧
      (d.nextTrainBatch batchSize).1.testImages = d.testImages ∧
      (d.nextTrainBatch batchSize).1.trainLabels = d.trainLabels ∧
      (d.nextTrainBatch batchSize).1.testLabels = d.testLabels) ∧
    ((d.nextTestBatch batchSize).1.shuffledTrainIndex = d.shuffledTrainIndex ∧
      (d.nextTestBatch batchSize).1.datasetImages = d.datasetImages ∧
      (d.nextTestBatch batchSize).1.datasetLabels = d.datasetLabels ∧
      (d.nextTestBatch batchSize).1.trainIndices = d.trainIndices ∧
      (d.nextTestBatch batchSize).1.testIndices = d.testIndices ∧
      (d.nextTestBatch batchSize).1.trainImages = d.trainImages ∧
      (d.nextTestBatch batchSize).1.testImages = d.testImages ∧
      (d.nextTestBatch batchSize).1.trainLabels = d.trainLabels ∧
      (d.nextTestBatch batchSize).1.testLabels = d.testLabels) := by
  refine ⟨⟨?_, ?_, ?_, ?_, ?_, ?_, ?_, ?_, ?_⟩, ?_, ?_, ?_, ?_, ?_, ?_, ?_, ?_, ?_⟩
  · exact nextBatchAux_fst_invariant _ _ trainIndexFn
      (fun s => s.shuffledTestIndex) (fun s => rfl) batchSize 0 d _ _
  · exact nextBatchAux_fst_invariant _ _ trainIndexFn
      (fun s => s.datasetImages) (fun s => rfl) batchSize 0 d _ _
  · exact nextBatchAux_fst_invariant _ _ trainIndexFn
      (fun s => s.datasetLabels) (fun s => rfl) batchSize 0 d _ _
  · exact nextBatchAux_fst_invariant _ _ trainIndexFn
      (fun s => s.trainIndices) (fun s => rfl) batchSize 0 d _ _
  · exact nextBatchAux_fst_invariant _ _ trainIndexFn
      (fun s => s.testIndices) (fun s => rfl) batchSize 0 d _ _
  · exact nextBatchAux_fst_invariant _ _ trainIndexFn
      (fun s => s.trainImages) (fun s => rfl) batchSize 0 d _ _
  · exact nextBatchAux_fst_invariant _ _ trainIndexFn
      (fun s => s.testImages) (fun s => rfl) batchSize 0 d _ _
  · exact nextBatchAux_fst_invariant _ _ trainIndexFn
      (fun s => s.trainLabels) (fun s => rfl) batchSize 0 d _ _
  · exact nextBatchAux_fst_invariant _ _ trainIndexFn
      (fun s => s.testLabels) (fun s => rfl) batchSize 0 d _ _
  · exact nextBatchAux_fst_invariant _ _ testIndexFn
      (fun s => s.shuffledTrainIndex) (fun s => rfl) batchSize 0 d _ _
  · exact nextBatchAux_fst_invariant _ _ testIndexFn
      (fun s => s.datasetImages) (fun s => rfl) batchSize 0 d _ _
  · exact nextBatchAux_fst_invariant _ _ testIndexFn
      (fun s => s.datasetLabels) (fun s => rfl) batchSize 0 d _ _
  · exact nextBatchAux_fst_invariant _ _ testIndexFn
      (fun s => s.trainIndices) (fun s => rfl) batchSize 0 d _ _
  · exact nextBatchAux_fst_invariant _ _ testIndexFn
      (fun s => s.testIndices) (fun s => rfl) batchSize 0 d _ _
  · exact nextBatchAux_fst_invariant _ _ testIndexFn
      (fun s => s.trainImages) (fun s => rfl) batchSize 0 d _ _
  · exact nextBatchAux_fst_invariant _ _ testIndexFn
      (fun s => s.testImages) (fun s => rfl) batchSize 0 d _ _
  · exact nextBatchAux_fst_invariant _ _ testIndexFn
      (fun s => s.trainLabels) (fun s => rfl) batchSize 0 d _ _
  · exact nextBatchAux_fst_invariant _ _ testIndexFn
      (fun s => s.testLabels) (fun s => rfl) batchSize 0 d _ _

/-- The concrete scenario of §8 of the spec: a partition of size 6 with
permutation [3, 0, 5, 2, 4, 1], freshly loaded, so the cursors are at their
constructor-initialised position 0. -/
def scenarioData : MnistData where
  shuffledTrainIndex := 0
  shuffledTestIndex := 0
  datasetImages := none
  datasetLabels := none
  trainIndices := some [3, 0, 5, 2, 4, 1]
  testIndices := none
  trainImages := some (List.replicate (6 * IMAGE_SIZE) 0)
  testImages := none
  trainLabels := some (List.replicate (6 * NUM_CLASSES) 0)
  testLabels := none

/-- C3 counterexample: on the §8 scenario (partition size 6, permutation
[3, 0, 5, 2, 4, 1], cursor at the constructor-initialised 0), `nextBatch`
with batch size 4 does NOT return the draw indices [3, 0, 5, 2] with the
cursor ending at position 3: the code pre-increments the cursor from 0, so
the first draw reads permutation position 1, not 0. -/
theorem scenario_counterexample :
    ¬ (trainDraws scenarioData 4 = [3, 0, 5, 2] ∧
       (scenarioData.nextTrainBatch 4).1.shuffledTrainIndex = 3) := by
  decide

/-- C3 amended: on the §8 scenario the four draws read permutation positions
1, 2, 3, 4, i.e. the draw indices are [0, 5, 2, 4] in that order, and the
cursor ends at position 4 (pointing at index 4). -/
theorem scenario_amended :
    trainDraws scenarioData 4 = [0, 5, 2, 4] ∧
    (scenarioData.nextTrainBatch 4).1.shuffledTrainIndex = 4 := by
  exact ⟨rfl, rfl⟩

/-- C5: for every wrapped operation, under the retry wrapper with
`MAX_RETRIES = 3`: if it fails on attempts 1 and 2 and succeeds on attempt
3, the wrapper returns the success result after attempts [1, 2, 3] with the
two backoff delays `RETRY_DELAY * 1` then `RETRY_DELAY * 2`; if it fails on
all three attempts, the wrapper propagates the third failure unchanged
after the same two delays.  Both `loadImagesWithRetry` and
`loadLabelsWithRetry` behave identically. -/
theorem retry_semantics {α : Type} (op : Nat → Except String α)
    (e1 e2 e3 : String) (a : α) :
    (op 1 = Except.error e1 → op 2 = Except.error e2 → op 3 = Except.ok a →
      loadImagesWithRetry op MAX_RETRIES
          = (some (Except.ok a), [RETRY_DELAY * 1, RETRY_DELAY * 2], [1, 2, 3]) ∧
      loadLabelsWithRetry op MAX_RETRIES
          = (some (Except.ok a), [RETRY_DELAY * 1, RETRY_DELAY * 2], [1, 2, 3])) ∧
    (op 1 = Except.error e1 → op 2 = Except.error e2 → op 3 = Except.error e3 →
      loadImagesWithRetry op MAX_RETRIES
          = (some (Except.error e3), [RETRY_DELAY * 1, RETRY_DELAY * 2], [1, 2, 3]) ∧
      loadLabelsWithRetry op MAX_RETRIES
          = (some (Except.error e3), [RETRY_DELAY * 1, RETRY_DELAY * 2], [1, 2, 3])) := by
  constructor
  · intro h1 h2 h3
    constructor <;>
      · simp only [loadImagesWithRetry, loadLabelsWithRetry, MAX_RETRIES, retryAux,
          h1, h2, h3]
        norm_num
  · intro h1 h2 h3
    constructor <;>
      · simp only [loadImagesWithRetry, loadLabelsWithRetry, MAX_RETRIES, retryAux,
          h1, h2, h3]
        norm_num

/-- Witness for C5 at a concrete operation that fails twice then succeeds. -/
theorem retry_semantics_witness :
    loadImagesWithRetry
        (fun k => if k = 3 then Except.ok (7 : Nat) else Except.error "boom")
        MAX_RETRIES
      = (some (Except.ok 7), [RETRY_DELAY * 1, RETRY_DELAY * 2], [1, 2, 3]) :=
  ((retry_semantics
    (fun k => if k = 3 then Except.ok (7 : Nat) else Except.error "boom")
    "boom" "boom" "x" 7).1 rfl rfl rfl).1

theorem validateData_isSome (d : MnistData) (imgs : List ℚ) (lbls : List Nat)
    (h1 : d.datasetImages = some imgs) (h2 : d.datasetLabels = some lbls)
    (h : imgs.length ≠ NUM_DATASET_ELEMENTS * IMAGE_SIZE ∨
         lbls.length ≠ NUM_DATASET_ELEMENTS * NUM_CLASSES) :
    d.validateData ≠ none := by
  rw [show NUM_DATASET_ELEMENTS * IMAGE_SIZE = 50960000 from rfl,
      show NUM_DATASET_ELEMENTS * NUM_CLASSES = 650000 from rfl] at h
  simp only [MnistData.validateData, h1, h2,
    show NUM_DATASET_ELEMENTS * IMAGE_SIZE = 50960000 from rfl,
    show NUM_DATASET_ELEMENTS * NUM_CLASSES = 650000 from rfl]
  by_cases hz1 : imgs.length = 0
  · simp [hz1]
  · by_cases hz2 : lbls.length = 0
    · simp [hz1, hz2]
    · rcases h with h | h
      · simp [hz1, hz2, h]
      · by_cases h3 : imgs.length = 50960000 <;> simp [hz1, hz2, h3, h]

theorem load_eq_of_invalid (d : MnistData) (imgs : List ℚ) (lbls : List Nat)
    (ti tei : List Nat)
    (h : imgs.length ≠ NUM_DATASET_ELEMENTS * IMAGE_SIZE ∨
         lbls.length ≠ NUM_DATASET_ELEMENTS * NUM_CLASSES) :
    ∃ e, d.load imgs lbls ti tei
        = ({ d with datasetImages := some imgs, datasetLabels := some lbls },
           some e) := by
  simp only [MnistData.load]
  set d1 : MnistData :=
    { d with datasetImages := some imgs, datasetLabels := some lbls } with hd1
  have hne := validateData_isSome d1 imgs lbls (by rw [hd1]) (by rw [hd1]) h
  rcases hval : d1.validateData with _ | e
  · exact absurd hval hne
  · exact ⟨_, rfl⟩

/-- C4: `load()` succeeds exactly when the image corpus length is
65000 * 784 and the label corpus length is 65000 * 10 (a missing or empty
corpus is covered, its length not being 65000 * 784); on a validation
failure the load reports an error and the partition arrays and index
permutations remain unpopulated. -/
theorem load_validates_sizes (imgs : List ℚ) (lbls : List Nat)
    (ti tei : List Nat) :
    ((MnistData.new.load imgs lbls ti tei).2 = none ↔
      (imgs.length = NUM_DATASET_ELEMENTS * IMAGE_SIZE ∧
       lbls.length = NUM_DATASET_ELEMENTS * NUM_CLASSES)) ∧
    ((MnistData.new.load imgs lbls ti tei).2 ≠ none →
      (MnistData.new.load imgs lbls ti tei).1.trainIndices = none ∧
      (MnistData.new.load imgs lbls ti tei).1.testIndices = none ∧
      (MnistData.new.load imgs lbls ti tei).1.trainImages = none ∧
      (MnistData.new.load imgs lbls ti tei).1.testImages = none ∧
      (MnistData.new.load imgs lbls ti tei).1.trainLabels = none ∧
      (MnistData.new.load imgs lbls ti tei).1.testLabels = none) := by
  by_cases hi : imgs.length = NUM_DATASET_ELEMENTS * IMAGE_SIZE
  · by_cases hl : lbls.length = NUM_DATASET_ELEMENTS * NUM_CLASSES
    · rw [load_eq_of_valid MnistData.new imgs lbls ti tei hi hl]
      constructor
      · simp [hi, hl]
      · intro h
        exact absurd rfl h
    · obtain ⟨e, he⟩ := load_eq_of_invalid MnistData.new imgs lbls ti tei (Or.inr hl)
      rw [he]
      constructor
      · simp [hl]
      · intro _
        exact ⟨rfl, rfl, rfl, rfl, rfl, rfl⟩
  · obtain ⟨e, he⟩ := load_eq_of_invalid MnistData.new imgs lbls ti tei (Or.inl hi)
    rw [he]
    constructor
    · simp [hi]
    · intro _
      exact ⟨rfl, rfl, rfl, rfl, rfl, rfl⟩

/-- Witness for C4 at the concrete input of two empty corpora: the load
fails and leaves the partition arrays and permutations unpopulated. -/
theorem load_validates_sizes_witness :
    (MnistData.new.load [] [] [] []).1.trainIndices = none ∧
    (MnistData.new.load [] [] [] []).1.trainImages = none :=
  ⟨((load_validates_sizes [] [] [] []).2 (by decide)).1,
   ((load_validates_sizes [] [] [] []).2 (by decide)).2.2.1⟩

/-- C6: after a successful load, the training partition is exactly the first
floor(5/6 * 65000) = 54166 examples and the test partition the remaining
10834, as pure contiguous slices preserving corpus order: train element `k`
equals corpus element `k`, test element `k` equals corpus element
`784 * 54166 + k` (stride 10 for labels). -/
theorem load_partition_slices (imgs : List ℚ) (lbls : List Nat)
    (ti tei : List Nat)
    (hi : imgs.length = NUM_DATASET_ELEMENTS * IMAGE_SIZE)
    (hl : lbls.length = NUM_DATASET_ELEMENTS * NUM_CLASSES) :
    NUM_TRAIN_ELEMENTS = 54166 ∧ NUM_TEST_ELEMENTS = 10834 ∧
    (MnistData.new.load imgs lbls ti tei).2 = none ∧
    ((MnistData.new.load imgs lbls ti tei).1.trainImages.getD []).length
        = 54166 * IMAGE_SIZE ∧
    ((MnistData.new.load imgs lbls ti tei).1.testImages.getD []).length
        = 10834 * IMAGE_SIZE ∧
    ((MnistData.new.load imgs lbls ti tei).1.trainLabels.getD []).length
        = 54166 * NUM_CLASSES ∧
    ((MnistData.new.load imgs lbls ti tei).1.testLabels.getD []).length
        = 10834 * NUM_CLASSES ∧
    (∀ k, k < 54166 * IMAGE_SIZE →
      ((MnistData.new.load imgs lbls ti tei).1.trainImages.getD []).getD k 0
        = imgs.getD k 0) ∧
    (∀ k, k < 10834 * IMAGE_SIZE →
      ((MnistData.new.load imgs lbls ti tei).1.testImages.getD []).getD k 0
        = imgs.getD (IMAGE_SIZE * 54166 + k) 0) ∧
    (∀ k, k < 54166 * NUM_CLASSES →
      ((MnistData.new.load imgs lbls ti tei).1.trainLabels.getD []).getD k 0
        = lbls.getD k 0) ∧
    (∀ k, k < 10834 * NUM_CLASSES →
      ((MnistData.new.load imgs lbls ti tei).1.testLabels.getD []).getD k 0
        = lbls.getD (NUM_CLASSES * 54166 + k) 0) := by
  have eNTE : NUM_TRAIN_ELEMENTS = 54166 := by decide
  have eNTEST : NUM_TEST_ELEMENTS = 10834 := by decide
  have eIS : IMAGE_SIZE = 784 := rfl
  have eNC : NUM_CLASSES = 10 := rfl
  have eND : NUM_DATASET_ELEMENTS = 65000 := rfl
  rw [load_eq_of_valid MnistData.new imgs lbls ti tei hi hl]
  simp only [Option.getD_some]
  refine ⟨eNTE, eNTEST, trivial, ?_, ?_, ?_, ?_, ?_, ?_, ?_, ?_⟩
  · rw [List.length_take, hi, eIS, eNTE, eND]
    omega
  · rw [List.length_drop, hi, eIS, eNTE, eND]
  · rw [List.length_take, hl, eNC, eNTE, eND]
    omega
  · rw [List.length_drop, hl, eNC, eNTE, eND]
  · intro k hk
    have hcond : k < IMAGE_SIZE * NUM_TRAIN_ELEMENTS := by
      rw [eIS, eNTE]
      rw [eIS] at hk
      omega
    rw [List.getD_eq_getElem?_getD, List.getElem?_take, if_pos hcond,
      ← List.getD_eq_getElem?_getD]
  · intro k hk
    rw [List.getD_eq_getElem?_getD, List.getElem?_drop,
      ← List.getD_eq_getElem?_getD, eNTE]
  · intro k hk
    have hcond : k < NUM_CLASSES * NUM_TRAIN_ELEMENTS := by
      rw [eNC, eNTE]
      rw [eNC] at hk
      omega
    rw [List.getD_eq_getElem?_getD, List.getElem?_take, if_pos hcond,
      ← List.getD_eq_getElem?_getD]
  · intro k hk
    rw [List.getD_eq_getElem?_getD, List.getElem?_drop,
      ← List.getD_eq_getElem?_getD, eNTE]

/-- Witness for C6 at concrete corpora of the required lengths. -/
theorem load_partition_slices_witness :
    (List.replicate (NUM_DATASET_ELEMENTS * IMAGE_SIZE) (0 : ℚ)).length
        = NUM_DATASET_ELEMENTS * IMAGE_SIZE ∧
    NUM_TRAIN_ELEMENTS = 54166 ∧ NUM_TEST_ELEMENTS = 10834 ∧
    (MnistData.new.load (List.replicate (NUM_DATASET_ELEMENTS * IMAGE_SIZE) 0)
        (List.replicate (NUM_DATASET_ELEMENTS * NUM_CLASSES) 0) [] []).2 = none :=
  ⟨by simp,
   (load_partition_slices
      (List.replicate (NUM_DATASET_ELEMENTS * IMAGE_SIZE) 0)
      (List.replicate (NUM_DATASET_ELEMENTS * NUM_CLASSES) 0) [] []
      (by simp) (by simp)).1,
   (load_partition_slices
      (List.replicate (NUM_DATASET_ELEMENTS * IMAGE_SIZE) 0)
      (List.replicate (NUM_DATASET_ELEMENTS * NUM_CLASSES) 0) [] []
      (by simp) (by simp)).2.1,
   (load_partition_slices
      (List.replicate (NUM_DATASET_ELEMENTS * IMAGE_SIZE) 0)
      (List.replicate (NUM_DATASET_ELEMENTS * NUM_CLASSES) 0) [] []
      (by simp) (by simp)).2.2.1⟩

/-- C7 counterexample: at a total example count of 6000, which is not a
multiple of the chunk size 5000, the chunk loop does NOT process only the
remaining 1000 rows in its final chunk: it attempts a full 5000-row chunk,
whose `Float32Array` view does not fit in the 6000 * 784 buffer, so the
decode fails with a RangeError instead of finishing in bounds. -/
theorem decode_nonmultiple_counterexample :
    loadImagesDecode 6000 5000 784 (fun _ => 0)
      = Except.error "RangeError: invalid typed array length" := rfl

/-- C7 amended: for a total example count `n` that IS an exact multiple of
the chunk size (the code's 65000 with chunk size 5000 is one), the chunk
loop runs `n / chunkSize` full chunks, succeeds, never writes past the
`n * 784`-element dataset buffer, and every decoded value at offset `k`
equals the sprite's red-channel value at pixel `k` divided by 255 (the
value at chunk offset `i * chunkSize * 784 + j` comes from that chunk's
pixel `j`).  For a count that is not a multiple, the final chunk is
attempted at full size and the decode fails with a RangeError (see the
counterexample) instead of processing only the remainder. -/
theorem decode_multiple_ok (n cs : Nat) (red : Nat → Nat)
    (hcs : 0 < cs) (hdvd : cs ∣ n) :
    numChunks n cs = n / cs ∧
    ∃ out, loadImagesDecode n cs 784 red = Except.ok out ∧
      out.length = n * IMAGE_SIZE ∧
      ∀ k, k < n * IMAGE_SIZE → out.getD k 0 = (red k : ℚ) / 255 := by
  have hnum : numChunks n cs = n / cs := numChunks_of_dvd n cs hcs hdvd
  obtain ⟨m, rfl⟩ := hdvd
  have hm : cs * m / cs = m := Nat.mul_div_cancel_left _ hcs
  have hcover : (0 + numChunks (cs * m) cs) * (IMAGE_SIZE * cs)
      = cs * m * IMAGE_SIZE := by
    rw [hnum, hm, Nat.zero_add]
    ring
  obtain ⟨out, hout, hlen, _, hval⟩ :=
    decodeChunksAux_spec cs (cs * m) red (numChunks (cs * m) cs) 0
      (List.replicate (cs * m * IMAGE_SIZE) 0) (by simp)
      (le_of_eq hcover)
  refine ⟨hnum, out, hout, hlen, ?_⟩
  intro k hk
  refine hval k (by simp) ?_
  rw [hcover]
  exact hk

/-- Witness for C7's amended theorem at the code's actual configuration:
65000 examples, chunk size 5000 (an exact multiple). -/
theorem decode_multiple_ok_witness :
    0 < 5000 ∧ (5000 : Nat) ∣ NUM_DATASET_ELEMENTS ∧
    (numChunks NUM_DATASET_ELEMENTS 5000 = NUM_DATASET_ELEMENTS / 5000 ∧
      ∃ out, loadImagesDecode NUM_DATASET_ELEMENTS 5000 784 (fun _ => 0)
          = Except.ok out ∧
        out.length = NUM_DATASET_ELEMENTS * IMAGE_SIZE ∧
        ∀ k, k < NUM_DATASET_ELEMENTS * IMAGE_SIZE →
          out.getD k 0 = ((fun _ => (0 : Nat)) k : ℚ) / 255) :=
  ⟨by decide, by decide,
   decode_multiple_ok NUM_DATASET_ELEMENTS 5000 (fun _ => 0)
     (by decide) (by decide)⟩

/-- A small loaded dataset used by concrete witnesses: train partition of
size 6 with permutation [3, 0, 5, 2, 4, 1], test partition of size 3 with
permutation [1, 0, 2]. -/
def sampleData : MnistData where
  shuffledTrainIndex := 0
  shuffledTestIndex := 0
  datasetImages := none
  datasetLabels := none
  trainIndices := some [3, 0, 5, 2, 4, 1]
  testIndices := some [1, 0, 2]
  trainImages := some (List.replicate (6 * IMAGE_SIZE) 0)
  testImages := some (List.replicate (3 * IMAGE_SIZE) 0)
  trainLabels := some (List.replicate (6 * NUM_CLASSES) 0)
  testLabels := some (List.replicate (3 * NUM_CLASSES) 0)

/-- C1: on a loaded dataset, `nextBatch(batchSize)` (here through
`nextTrainBatch`) advances the cursor once per element — the `i`-th drawn
index is the permutation entry at position `(cursor + i + 1) mod P`, and the
final cursor is `(cursor + batchSize) mod P` — and copies, for draw `idx`
at output position `i`, image corpus elements
`[idx * 784, idx * 784 + 784)` to output positions
`[i * 784, i * 784 + 784)` and label corpus elements
`[idx * 10, idx * 10 + 10)` to output positions `[i * 10, i * 10 + 10)`,
with no off-by-one (every element of every record lands at the exact
corresponding output offset). -/
theorem nextTrainBatch_copies_slices (d : MnistData) (ti : List Nat)
    (images : List ℚ) (labels : List Nat) (batchSize : Nat)
    (hti : d.trainIndices = some ti) (hne : ti ≠ [])
    (himgs : d.trainImages = some images) (hlbls : d.trainLabels = some labels)
    (himg : ∀ v ∈ ti, (v + 1) * IMAGE_SIZE ≤ images.length)
    (hlbl : ∀ v ∈ ti, (v + 1) * NUM_CLASSES ≤ labels.length)
    (hcur : d.shuffledTrainIndex < ti.length) :
    (d.nextTrainBatch batchSize).1.shuffledTrainIndex
        = (d.shuffledTrainIndex + batchSize) % ti.length ∧
    ∀ i, i < batchSize →
      (∀ t, t < IMAGE_SIZE →
        (d.nextTrainBatch batchSize).2.1.getD (i * IMAGE_SIZE + t) 0
          = images.getD
              (ti.getD ((d.shuffledTrainIndex + i + 1) % ti.length) 0
                * IMAGE_SIZE + t) 0) ∧
      (∀ t, t < NUM_CLASSES →
        (d.nextTrainBatch batchSize).2.2.getD (i * NUM_CLASSES + t) 0
          = labels.getD
              (ti.getD ((d.shuffledTrainIndex + i + 1) % ti.length) 0
                * NUM_CLASSES + t) 0) := by
  have hgi : d.trainImages.getD [] = images := by rw [himgs]; rfl
  have hgl : d.trainLabels.getD [] = labels := by rw [hlbls]; rfl
  rw [MnistData.nextTrainBatch, nextBatch, hgi, hgl]
  constructor
  · rcases Nat.eq_zero_or_pos batchSize with h0 | h0
    · subst h0
      show d.shuffledTrainIndex = _
      rw [Nat.add_zero, Nat.mod_eq_of_lt hcur]
    · exact (nextBatchAux_cursor images labels trainIndexFn
        (fun s => s.trainIndices = some ti) (fun s => s.shuffledTrainIndex) ti
        (trainIndexFn_spec ti) batchSize 0 d _ _ hti h0).2
  · intro i hi
    have key := nextBatchAux_getD_elem images labels trainIndexFn
      (fun s => s.trainIndices = some ti) (fun s => s.shuffledTrainIndex) ti
      (trainIndexFn_spec ti) hne himg hlbl batchSize 0 d
      (List.replicate (batchSize * IMAGE_SIZE) 0)
      (List.replicate (batchSize * NUM_CLASSES) 0)
      hti (by simp) (by simp) i (Nat.zero_le i) (by omega)
    rw [Nat.sub_zero] at key
    exact key

/-- Witness for C1 on the concrete `sampleData` with batch size 2. -/
theorem nextTrainBatch_copies_slices_witness :
    (sampleData.nextTrainBatch 2).1.shuffledTrainIndex
      = (sampleData.shuffledTrainIndex + 2) % ([3, 0, 5, 2, 4, 1] : List Nat).length :=
  (nextTrainBatch_copies_slices sampleData [3, 0, 5, 2, 4, 1]
    (List.replicate (6 * IMAGE_SIZE) 0) (List.replicate (6 * NUM_CLASSES) 0) 2
    rfl (by decide) rfl rfl (by simp only [List.length_replicate]; decide)
    (by simp only [List.length_replicate]; decide) (by decide)).1

/-- C2: for a freshly loaded partition of size `P` whose shuffled index
array is a permutation of `[0, P)`, drawing `P` consecutive batch elements
yields each index in `[0, P)` exactly once in a fixed order; the `(P+1)`-th
draw repeats the 1st draw, and a second pass repeats exactly the same draw
sequence (wraparound, never reshuffled). -/
theorem trainDraws_epoch_permutation (d : MnistData) (ti : List Nat) (P : Nat)
    (hti : d.trainIndices = some ti) (hc : d.shuffledTrainIndex = 0)
    (hlen : ti.length = P) (hP : 1 ≤ P) (hperm : ti.Perm (List.range P)) :
    (∀ v, v < P → (trainDraws d P).count v = 1) ∧
    (trainDraws d (P + 1)).getD P 0 = (trainDraws d (P + 1)).getD 0 0 ∧
    trainDraws d (2 * P) = trainDraws d P ++ trainDraws d P := by
  have hne : ti ≠ [] := by
    intro h
    rw [h] at hlen
    simp at hlen
    omega
  have hrot : trainDraws d P = ti.rotate 1 := by
    rw [trainDraws_eq ti P d hti, hc, ← hlen]
    exact drawSeq_epoch_rotate ti hne
  refine ⟨?_, ?_, ?_⟩
  · intro v hv
    rw [hrot]
    have hnd : (ti.rotate 1).Nodup :=
      ((List.rotate_perm ti 1).nodup_iff).mpr
        ((hperm.nodup_iff).mpr (List.nodup_range P))
    have hmem : v ∈ ti.rotate 1 := by
      rw [(List.rotate_perm ti 1).mem_iff, hperm.mem_iff, List.mem_range]
      exact hv
    exact List.count_eq_one_of_mem hnd hmem
  · rw [trainDraws_eq ti (P + 1) d hti, hc,
      drawSeq_getD ti 0 (P + 1) P (by omega),
      drawSeq_getD ti 0 (P + 1) 0 (by omega)]
    have hidx : (0 + P + 1) % ti.length = (0 + 0 + 1) % ti.length := by
      rw [hlen]
      simp only [Nat.zero_add]
      rw [Nat.add_mod_left]
    rw [hidx]
  · rw [trainDraws_eq ti (2 * P) d hti, trainDraws_eq ti P d hti, hc]
    have h2 : 2 * P = P + P := by omega
    rw [h2, drawSeq_append ti P P 0]
    congr 1
    rw [Nat.zero_add, hlen, Nat.mod_self]

/-- Witness for C2 on the concrete `sampleData` (P = 6, permutation
[3, 0, 5, 2, 4, 1]). -/
theorem trainDraws_epoch_permutation_witness :
    (∀ v, v < 6 → (trainDraws sampleData 6).count v = 1) ∧
    (trainDraws sampleData (6 + 1)).getD 6 0
        = (trainDraws sampleData (6 + 1)).getD 0 0 ∧
    trainDraws sampleData (2 * 6)
        = trainDraws sampleData 6 ++ trainDraws sampleData 6 :=
  trainDraws_epoch_permutation sampleData [3, 0, 5, 2, 4, 1] 6
    rfl rfl rfl (by decide) (by decide)

/-- C8: on a loaded dataset whose train partition has `P` records and whose
permutation is a permutation of `[0, P)`, for every `batchSize ≥ 1` —
including batch sizes larger than `P` — `nextTrainBatch` returns an image
array of length `batchSize * 784` (the `[batchSize, 784]` tensor payload)
and a label array of length `batchSize * 10` (the `[batchSize, 10]` tensor
payload); every drawn index stays within `[0, P)` (the cursor wraps without
corruption), image values keep the `[0, 1]` normalization and label values
keep the 0/1 encoding of the corpora. -/
theorem nextTrainBatch_shape_bounds (d : MnistData) (ti : List Nat) (P : Nat)
    (images : List ℚ) (labels : List Nat) (batchSize : Nat) (hb : 1 ≤ batchSize)
    (hti : d.trainIndices = some ti) (hlen : ti.length = P)
    (hperm : ti.Perm (List.range P))
    (himgs : d.trainImages = some images) (hlbls : d.trainLabels = some labels)
    (hil : images.length = P * IMAGE_SIZE) (hll : labels.length = P * NUM_CLASSES)
    (hcur : d.shuffledTrainIndex < P)
    (hvals : ∀ k, k < images.length → 0 ≤ images.getD k 0 ∧ images.getD k 0 ≤ 1)
    (hlvals : ∀ k, k < labels.length →
      labels.getD k 0 = 0 ∨ labels.getD k 0 = 1) :
    (d.nextTrainBatch batchSize).2.1.length = batchSize * IMAGE_SIZE ∧
    (d.nextTrainBatch batchSize).2.2.length = batchSize * NUM_CLASSES ∧
    (∀ x ∈ trainDraws d batchSize, x < P) ∧
    (∀ q, q < batchSize * IMAGE_SIZE →
      0 ≤ (d.nextTrainBatch batchSize).2.1.getD q 0 ∧
      (d.nextTrainBatch batchSize).2.1.getD q 0 ≤ 1) ∧
    (∀ q, q < batchSize * NUM_CLASSES →
      (d.nextTrainBatch batchSize).2.2.getD q 0 = 0 ∨
      (d.nextTrainBatch batchSize).2.2.getD q 0 = 1) := by
  have hP : 0 < P := by omega
  have hne : ti ≠ [] := by
    intro h
    rw [h] at hlen
    simp at hlen
    omega
  have hvP : ∀ v ∈ ti, v < P := by
    intro v hv
    exact List.mem_range.mp (hperm.mem_iff.mp hv)
  have himgB : ∀ v ∈ ti, (v + 1) * IMAGE_SIZE ≤ images.length := by
    intro v hv
    rw [hil]
    exact Nat.mul_le_mul_right _ (hvP v hv)
  have hlblB : ∀ v ∈ ti, (v + 1) * NUM_CLASSES ≤ labels.length := by
    intro v hv
    rw [hll]
    exact Nat.mul_le_mul_right _ (hvP v hv)
  have hgi : d.trainImages.getD [] = images := by rw [himgs]; rfl
  have hgl : d.trainLabels.getD [] = labels := by rw [hlbls]; rfl
  rw [MnistData.nextTrainBatch, nextBatch, hgi, hgl]
  have hlens := nextBatchAux_length images labels trainIndexFn batchSize 0 d
    (List.replicate (batchSize * IMAGE_SIZE) 0)
    (List.replicate (batchSize * NUM_CLASSES) 0) (by simp) (by simp)
  have key := nextBatchAux_getD_elem images labels trainIndexFn
    (fun s => s.trainIndices = some ti) (fun s => s.shuffledTrainIndex) ti
    (trainIndexFn_spec ti) hne himgB hlblB batchSize 0 d
    (List.replicate (batchSize * IMAGE_SIZE) 0)
    (List.replicate (batchSize * NUM_CLASSES) 0)
    hti (by simp) (by simp)
  refine ⟨?_, ?_, ?_, ?_, ?_⟩
  · exact hlens.1.trans (List.length_replicate _ _)
  · exact hlens.2.trans (List.length_replicate _ _)
  · intro x hx
    rw [trainDraws_eq ti batchSize d hti, drawSeq] at hx
    obtain ⟨k, hk, rfl⟩ := List.mem_map.mp hx
    apply hvP
    have hidx : (d.shuffledTrainIndex + k + 1) % ti.length < ti.length :=
      Nat.mod_lt _ (by rw [hlen]; omega)
    rw [List.getD_eq_getElem ti 0 hidx]
    exact List.getElem_mem hidx
  · intro q hq
    have hq1 : q / IMAGE_SIZE < batchSize := by
      exact (Nat.div_lt_iff_lt_mul (by decide : 0 < IMAGE_SIZE)).mpr hq
    have hq2 : q % IMAGE_SIZE < IMAGE_SIZE := Nat.mod_lt _ (by decide)
    have hdecomp : q = q / IMAGE_SIZE * IMAGE_SIZE + q % IMAGE_SIZE := by
      rw [Nat.mul_comm (q / IMAGE_SIZE) IMAGE_SIZE]
      exact (Nat.div_add_mod q IMAGE_SIZE).symm
    have hval := (key (q / IMAGE_SIZE) (Nat.zero_le _) (by omega)).1
      (q % IMAGE_SIZE) hq2
    rw [Nat.sub_zero] at hval
    simp only [] at hval
    rw [hdecomp, hval]
    have hidx : (d.shuffledTrainIndex + q / IMAGE_SIZE + 1) % ti.length
        < ti.length := Nat.mod_lt _ (by rw [hlen]; omega)
    have hmem : ti.getD ((d.shuffledTrainIndex + q / IMAGE_SIZE + 1) % ti.length)
        0 ∈ ti := by
      rw [List.getD_eq_getElem ti 0 hidx]
      exact List.getElem_mem hidx
    apply hvals
    have h1 := himgB _ hmem
    rw [add_one_mul] at h1
    omega
  · intro q hq
    have hq1 : q / NUM_CLASSES < batchSize := by
      exact (Nat.div_lt_iff_lt_mul (by decide : 0 < NUM_CLASSES)).mpr hq
    have hq2 : q % NUM_CLASSES < NUM_CLASSES := Nat.mod_lt _ (by decide)
    have hdecomp : q = q / NUM_CLASSES * NUM_CLASSES + q % NUM_CLASSES := by
      rw [Nat.mul_comm (q / NUM_CLASSES) NUM_CLASSES]
      exact (Nat.div_add_mod q NUM_CLASSES).symm
    have hval := (key (q / NUM_CLASSES) (Nat.zero_le _) (by omega)).2
      (q % NUM_CLASSES) hq2
    rw [Nat.sub_zero] at hval
    simp only [] at hval
    rw [hdecomp, hval]
    have hidx : (d.shuffledTrainIndex + q / NUM_CLASSES + 1) % ti.length
        < ti.length := Nat.mod_lt _ (by rw [hlen]; omega)
    have hmem : ti.getD ((d.shuffledTrainIndex + q / NUM_CLASSES + 1) % ti.length)
        0 ∈ ti := by
      rw [List.getD_eq_getElem ti 0 hidx]
      exact List.getElem_mem hidx
    apply hlvals
    have h1 := hlblB _ hmem
    rw [add_one_mul] at h1
    omega

/-- Witness for C8 on the concrete `sampleData` with batch size 8, larger
than the partition size 6, so the cursor wraps. -/
theorem nextTrainBatch_shape_bounds_witness :
    (sampleData.nextTrainBatch 8).2.1.length = 8 * IMAGE_SIZE ∧
    ∀ x ∈ trainDraws sampleData 8, x < 6 :=
  ⟨(nextTrainBatch_shape_bounds sampleData [3, 0, 5, 2, 4, 1] 6
      (List.replicate (6 * IMAGE_SIZE) 0) (List.replicate (6 * NUM_CLASSES) 0) 8
      (by decide) rfl rfl (by decide) rfl rfl (by simp) (by simp) (by decide)
      (fun k hk => by rw [getD_replicate]; exact ⟨le_refl 0, by norm_num⟩)
      (fun k hk => by rw [getD_replicate]; exact Or.inl rfl)).1,
   (nextTrainBatch_shape_bounds sampleData [3, 0, 5, 2, 4, 1] 6
      (List.replicate (6 * IMAGE_SIZE) 0) (List.replicate (6 * NUM_CLASSES) 0) 8
      (by decide) rfl rfl (by decide) rfl rfl (by simp) (by simp) (by decide)
      (fun k hk => by rw [getD_replicate]; exact ⟨le_refl 0, by norm_num⟩)
      (fun k hk => by rw [getD_replicate]; exact Or.inl rfl)).2.2.1⟩

theorem nextTrainBatch_cursor (d : MnistData) (ti : List Nat) (n : Nat)
    (hti : d.trainIndices = some ti) (hn : 1 ≤ n) :
    (d.nextTrainBatch n).1.shuffledTrainIndex
      = (d.shuffledTrainIndex + n) % ti.length :=
  (nextBatchAux_cursor (d.trainImages.getD []) (d.trainLabels.getD [])
    trainIndexFn (fun s => s.trainIndices = some ti)
    (fun s => s.shuffledTrainIndex) ti (trainIndexFn_spec ti)
    n 0 d _ _ hti hn).2

theorem nextTestBatch_cursor (d : MnistData) (tei : List Nat) (n : Nat)
    (htei : d.testIndices = some tei) (hn : 1 ≤ n) :
    (d.nextTestBatch n).1.shuffledTestIndex
      = (d.shuffledTestIndex + n) % tei.length :=
  (nextBatchAux_cursor (d.testImages.getD []) (d.testLabels.getD [])
    testIndexFn (fun s => s.testIndices = some tei)
    (fun s => s.shuffledTestIndex) tei (testIndexFn_spec tei)
    n 0 d _ _ htei hn).2

/-- C9: after a successful load with a train permutation of length 54166 and
a test permutation of length 10834, every finite sequence of
`nextTrainBatch` and `nextTestBatch` calls of any batch sizes keeps the
train cursor in `[0, 54166)` and the test cursor in `[0, 10834)`, so every
permutation lookup is in bounds. -/
theorem runCalls_cursor_bounds (imgs : List ℚ) (lbls : List Nat)
    (ti tei : List Nat)
    (hi : imgs.length = NUM_DATASET_ELEMENTS * IMAGE_SIZE)
    (hl : lbls.length = NUM_DATASET_ELEMENTS * NUM_CLASSES)
    (hti : ti.length = NUM_TRAIN_ELEMENTS) (htei : tei.length = NUM_TEST_ELEMENTS)
    (calls : List (Bool × Nat)) :
    (runCalls (MnistData.new.load imgs lbls ti tei).1 calls).shuffledTrainIndex
        < NUM_TRAIN_ELEMENTS ∧
    (runCalls (MnistData.new.load imgs lbls ti tei).1 calls).shuffledTestIndex
        < NUM_TEST_ELEMENTS := by
  rw [load_eq_of_valid MnistData.new imgs lbls ti tei hi hl]
  have main : ∀ (cs : List (Bool × Nat)) (d : MnistData),
      d.trainIndices = some ti → d.testIndices = some tei →
      d.shuffledTrainIndex < NUM_TRAIN_ELEMENTS →
      d.shuffledTestIndex < NUM_TEST_ELEMENTS →
      (runCalls d cs).shuffledTrainIndex < NUM_TRAIN_ELEMENTS ∧
      (runCalls d cs).shuffledTestIndex < NUM_TEST_ELEMENTS := by
    intro cs
    induction cs with
    | nil => intro d h1 h2 h3 h4; exact ⟨h3, h4⟩
    | cons c rest ih =>
      intro d h1 h2 h3 h4
      rw [runCalls]
      by_cases hc : c.1
      · rw [if_pos hc]
        apply ih
        · exact (nextBatchAux_fst_invariant (d.trainImages.getD [])
            (d.trainLabels.getD []) trainIndexFn (fun s => s.trainIndices)
            (fun s => rfl) c.2 0 d _ _).trans h1
        · exact (nextBatchAux_fst_invariant (d.trainImages.getD [])
            (d.trainLabels.getD []) trainIndexFn (fun s => s.testIndices)
            (fun s => rfl) c.2 0 d _ _).trans h2
        · rcases Nat.eq_zero_or_pos c.2 with h0 | h0
          · rw [h0]
            exact h3
          · rw [nextTrainBatch_cursor d ti c.2 h1 h0, hti]
            exact Nat.mod_lt _ (by omega)
        · exact lt_of_eq_of_lt
            (nextBatchAux_fst_invariant (d.trainImages.getD [])
              (d.trainLabels.getD []) trainIndexFn (fun s => s.shuffledTestIndex)
              (fun s => rfl) c.2 0 d _ _) h4
      · rw [if_neg hc]
        apply ih
        · exact (nextBatchAux_fst_invariant (d.testImages.getD [])
            (d.testLabels.getD []) testIndexFn (fun s => s.trainIndices)
            (fun s => rfl) c.2 0 d _ _).trans h1
        · exact (nextBatchAux_fst_invariant (d.testImages.getD [])
            (d.testLabels.getD []) testIndexFn (fun s => s.testIndices)
            (fun s => rfl) c.2 0 d _ _).trans h2
        · exact lt_of_eq_of_lt
            (nextBatchAux_fst_invariant (d.testImages.getD [])
              (d.testLabels.getD []) testIndexFn (fun s => s.shuffledTrainIndex)
              (fun s => rfl) c.2 0 d _ _) h3
        · rcases Nat.eq_zero_or_pos c.2 with h0 | h0
          · rw [h0]
            exact h4
          · rw [nextTestBatch_cursor d tei c.2 h2 h0, htei]
            exact Nat.mod_lt _ (by omega)
  exact main calls _ rfl rfl
    (by show (0 : Nat) < NUM_TRAIN_ELEMENTS; decide)
    (by show (0 : Nat) < NUM_TEST_ELEMENTS; decide)

/-- Witness for C9 on concrete corpora and permutations of the required
lengths, with a concrete call sequence mixing train and test batches. -/
theorem runCalls_cursor_bounds_witness :
    (runCalls (MnistData.new.load
        (List.replicate (NUM_DATASET_ELEMENTS * IMAGE_SIZE) 0)
        (List.replicate (NUM_DATASET_ELEMENTS * NUM_CLASSES) 0)
        (List.replicate NUM_TRAIN_ELEMENTS 0)
        (List.replicate NUM_TEST_ELEMENTS 0)).1
      [(true, 2), (false, 3), (true, 0)]).shuffledTrainIndex
        < NUM_TRAIN_ELEMENTS ∧
    (runCalls (MnistData.new.load
        (List.replicate (NUM_DATASET_ELEMENTS * IMAGE_SIZE) 0)
        (List.replicate (NUM_DATASET_ELEMENTS * NUM_CLASSES) 0)
        (List.replicate NUM_TRAIN_ELEMENTS 0)
        (List.replicate NUM_TEST_ELEMENTS 0)).1
      [(true, 2), (false, 3), (true, 0)]).shuffledTestIndex
        < NUM_TEST_ELEMENTS :=
  runCalls_cursor_bounds
    (List.replicate (NUM_DATASET_ELEMENTS * IMAGE_SIZE) 0)
    (List.replicate (NUM_DATASET_ELEMENTS * NUM_CLASSES) 0)
    (List.replicate NUM_TRAIN_ELEMENTS 0)
    (List.replicate NUM_TEST_ELEMENTS 0)
    (by simp) (by simp) (by simp) (by simp)
    [(true, 2), (false, 3), (true, 0)]
